import Mathlib

/-!
Shallow embedding of `src/fabfile.py` (the transcript-editor deploy script):
the host registry `SERVERS`, the role resolver `_get_roledefs`, the
`strict_roles` guard, the context-mutating tasks `prod` / `r`, and the
deploy pipeline (`deploy`, `_check_git_dir`, `_git_info`, `_deploy_git`,
`_install`, `_restart`).  Remote execution is modelled by an oracle
`Exec : String → Bool × String` giving each command's success flag and
captured stdout; fabric's abort-on-failure semantics become `Except`.
-/

namespace Fabfile

/-- A server descriptor: one value of the Python `SERVERS` dict
(`host`, `environment`, `roles`).  The registry is the sequence of
descriptors in iteration order. -/
structure Server where
  host : String
  environment : String
  roles : List String
deriving DecidableEq

/-- The literal `SERVERS` table of the fabfile (dict values, in order). -/
def SERVERS : List Server :=
  [⟨"archives-prod-transcript-app.nypr.digital", "prod", ["transcript"]⟩]

/-- The literal `REPO` constant. -/
def REPO : String := "git@github.com:nypublicradio/transcript-editor"

/-- Python `d.get(k, default)` on an association list (dict in iteration
order): value of the first pair whose key equals `k`, else the default. -/
def dictGet (d : List (String × List String)) (k : String)
    (dflt : List String) : List String :=
  match d.find? (fun p => p.1 == k) with
  | some p => p.2
  | none => dflt

/-- The distinct role names across all descriptors:
`list(set([role for traits in SERVERS.values() for role in traits['roles']]))`. -/
def allRoles (registry : List Server) : List String :=
  ((registry.map Server.roles).flatten).dedup

/-- The host sequence the resolver builds for one role:
`[traits['host'] for server, traits in SERVERS.items() if role in traits['roles']
and (environment == traits['environment'] or traits['environment'] == 'all')]`. -/
def roleHosts (registry : List Server) (environment role : String) : List String :=
  (registry.filter (fun s =>
      decide (role ∈ s.roles ∧
        (environment = s.environment ∨ s.environment = "all")))).map Server.host

/-- `_get_roledefs`, generalized over the registry it reads (the source
closes over the module-level `SERVERS`). -/
def _get_roledefsR (registry : List Server) (environment : String) :
    List (String × List String) :=
  (allRoles registry).map (fun role => (role, roleHosts registry environment role))

/-- `_get_roledefs(environment)` as written: reads the literal `SERVERS`. -/
def _get_roledefs (environment : String) : List (String × List String) :=
  _get_roledefsR SERVERS environment

/-- State-threaded view of `_get_roledefs`: the function only reads the
registry (it builds a fresh dict and never assigns into `SERVERS`), so the
registry component of the result is the input registry. -/
def _get_roledefs_run (registry : List Server) (environment : String) :
    List (String × List String) × List Server :=
  (_get_roledefsR registry environment, registry)

/-- Result of calling a `strict_roles`-guarded function: either the wrapped
task's return value, or the Python literal `False` the guard returns when
the current host holds none of the required roles. -/
inductive GuardResult (α : Type) where
  | ret : α → GuardResult α
  | sentinelFalse : GuardResult α
deriving DecidableEq

/-- The body of `strict_roles(...)`'s `inner_decorator`: scan the attached
role list; at the first role whose `roledefs.get(role, [])` sequence
contains the current host, call the task and return its result; if no role
qualifies, return `False` without calling the task. -/
def strictRolesCall {α : Type} (roles : List String)
    (roledefs : List (String × List String)) (host : String)
    (task : Unit → α) : GuardResult α :=
  match roles with
  | [] => .sentinelFalse
  | role :: rest =>
    if host ∈ dictGet roledefs role [] then .ret (task ())
    else strictRolesCall rest roledefs host task

/-- The dict `_git_info` stores in `env.git_info`. -/
structure GitInfo where
  revision : String
  previous_commit : String
  deployed_commit : String
  changed_files : List String
deriving DecidableEq

/-- The slice of fabric's global `env` the fabfile reads and writes.
`git_revision` and `git_info` are `Option` because the script probes them
with `getattr`/`hasattr` before they are first assigned. -/
structure EnvState where
  environment : String
  user : String
  git_dir : String
  roledefs : List (String × List String)
  roles : List String
  git_branch : String
  host : String
  git_revision : Option String
  git_info : Option GitInfo
deriving DecidableEq

/-- `_load_shared_env_dict()`: fixed user and git dir, roledefs resolved
for the current environment, `env.roles` the roles with at least one host,
`env.git_branch` defaulted to the environment name. -/
def _load_shared_env_dict (e : EnvState) : EnvState :=
  let roledefs := _get_roledefs e.environment
  { e with
    user := "transcript"
    git_dir := "/opt/transcript/transcript-editor"
    roledefs := roledefs
    roles := (roledefs.filter (fun p => p.2.length > 0)).map Prod.fst
    git_branch := e.environment }

/-- The `prod` task: select environment "prod", load the shared env dict,
then override the git branch to "master". -/
def prod (e : EnvState) : EnvState :=
  let e1 := { e with environment := "prod" }
  let e2 := _load_shared_env_dict e1
  { e2 with git_branch := "master" }

/-- The `r` task: `env.git_revision = revision`. -/
def r (revision : String) (e : EnvState) : EnvState :=
  { e with git_revision := some revision }

/-- Python truthiness of the optional `env.git_revision` string:
absent (`None`) and the empty string are falsy. -/
def truthyOpt : Option String → Bool
  | none => false
  | some s => !(s == "")

/-- The remote command executor (fabric's `run` against the current host):
for each command string, whether it succeeds and its captured stdout. -/
def Exec : Type := String → Bool × String

/-- One issued remote command, with the `warn_only` mode it ran under. -/
structure Cmd where
  cmd : String
  warnOnly : Bool
deriving DecidableEq

/-- Run a list of commands sequentially, none of them in warn-only mode:
the trace of commands actually issued, and `.error cmd` as soon as one
fails (fabric aborts), `.ok ()` if all succeed. -/
def runSeq (ex : Exec) : List String → List Cmd × Except String Unit
  | [] => ([], Except.ok ())
  | c :: cs =>
    if (ex c).1 then
      let rest := runSeq ex cs
      (⟨c, false⟩ :: rest.1, rest.2)
    else ([⟨c, false⟩], Except.error c)

/-- `_check_git_dir` body: run `test -d <git_dir>` with `warn_only=True`
(its failure does not abort); if and only if that check failed, run
`git clone <REPO>` (a normal, fatal command). -/
def _check_git_dir (ex : Exec) (git_dir : String) :
    List Cmd × Except String Unit :=
  let test := "test -d " ++ git_dir
  if (ex test).1 then ([⟨test, true⟩], Except.ok ())
  else
    let clone := "git clone " ++ REPO
    ([⟨test, true⟩, ⟨clone, false⟩],
      if (ex clone).1 then Except.ok () else Except.error clone)

/-- The fetch command both `_deploy_git` and `_git_info` issue. -/
def gitFetchCmd (branch : String) : String :=
  "git fetch -q origin +" ++ branch ++ ":remotes/origin/" ++ branch

/-- `_deploy_git(branch)` body: fetch, hard reset to the remote branch,
check out `env.git_revision`; every command fatal on failure. -/
def _deploy_git (ex : Exec) (branch revision : String) :
    List Cmd × Except String Unit :=
  runSeq ex
    [gitFetchCmd branch,
     "git reset --hard remotes/origin/" ++ branch,
     "git checkout " ++ revision]

/-- The `git rev-parse` command whose stdout `_git_info` records as the
deployed revision. -/
def revParseCmd (branch : String) : String :=
  "git rev-parse remotes/origin/" ++ branch

/-- The five info-gathering commands `_git_info` runs, in order. -/
def gitInfoCmds (branch : String) : List String :=
  [gitFetchCmd branch,
   revParseCmd branch,
   "git diff --no-color --name-only remotes/origin/" ++ branch ++ " | cat",
   "git log --no-color -1 --full-history HEAD | cat",
   "git log --no-color -1 --full-history remotes/origin/" ++ branch ++ " | cat"]

/-- Python `s.split('\\n')`: split on each newline, keeping empty pieces
(structural recursion over the character list). -/
def splitNlAux : List Char → List Char → List String
  | [], acc => [String.mk acc.reverse]
  | c :: cs, acc =>
    if c = '\n' then String.mk acc.reverse :: splitNlAux cs []
    else splitNlAux cs (c :: acc)

/-- Python `s.split('\\n')` on a string. -/
def splitNl (s : String) : List String := splitNlAux s.data []

/-- The dict `_git_info` assigns to `env.git_info`: the captured stdout of
the rev-parse, log and diff commands (the diff output split on newlines). -/
def gitInfoOf (ex : Exec) (branch : String) : GitInfo where
  revision := (ex (revParseCmd branch)).2
  previous_commit :=
    (ex ("git log --no-color -1 --full-history HEAD | cat")).2
  deployed_commit :=
    (ex ("git log --no-color -1 --full-history remotes/origin/"
          ++ branch ++ " | cat")).2
  changed_files :=
    splitNl (ex ("git diff --no-color --name-only remotes/origin/"
          ++ branch ++ " | cat")).2

/-- `_git_info(branch)` body: if `env.git_info` is already set, return at
once with no command issued and the context untouched; otherwise run the
five info-gathering commands (each fatal on failure) and record their
stdout in `env.git_info`. -/
def _git_info (ex : Exec) (branch : String) (e : EnvState) :
    EnvState × List Cmd × Except String Unit :=
  match e.git_info with
  | some _ => (e, [], Except.ok ())
  | none =>
    let res := runSeq ex (gitInfoCmds branch)
    match res.2 with
    | Except.error m => (e, res.1, Except.error m)
    | Except.ok _ =>
      ({ e with git_info := some (gitInfoOf ex branch) }, res.1, Except.ok ())

/-- `_install()` body: bundler and rake setup commands, all fatal. -/
def _install (ex : Exec) : List Cmd × Except String Unit :=
  runSeq ex
    ["bundle install --path vendor/bundle",
     "test -e config/application.yml || ln -s /etc/transcript-editor/application.yml config/application.yml",
     "test -e config/database.yml || ln -s /etc/transcript-editor/database.yml config/database.yml",
     "RAILS_ENV=production rake db:version || RAILS_ENV=production rake db:setup",
     "RAILS_ENV=production rake project:load[\x22nypr-archives\x22]"]

/-- `_restart()` body: the single systemctl restart, fatal. -/
def _restart (ex : Exec) : List Cmd × Except String Unit :=
  runSeq ex ["sudo /usr/systemctl restart transcript"]

/-- Fabric `execute(task)` host loop over an explicit host list: set
`env.host`, re-evaluate the `strict_roles` guard for the task's attached
roles, run the body when some required role's roledefs sequence contains
the host (skip silently otherwise), and abort the remaining hosts on a
fatal failure. -/
def executeGo (taskRoles : List String)
    (body : EnvState → EnvState × List Cmd × Except String Unit) :
    List String → EnvState → EnvState × List Cmd × Except String Unit
  | [], e => (e, [], Except.ok ())
  | h :: hs, e =>
    let e1 := { e with host := h }
    if taskRoles.any (fun ro => decide (h ∈ dictGet e1.roledefs ro [])) then
      match body e1 with
      | (e2, tr, Except.error m) => (e2, tr, Except.error m)
      | (e2, tr, Except.ok _) =>
        let rest := executeGo taskRoles body hs e2
        (rest.1, tr ++ rest.2.1, rest.2.2)
    else executeGo taskRoles body hs e1

/-- Fabric `execute(task)`: the target hosts are the union, deduplicated,
of `env.roledefs[r]` over the task's attached roles; each is visited
sequentially by `executeGo`. -/
def executeTask (taskRoles : List String)
    (body : EnvState → EnvState × List Cmd × Except String Unit)
    (e : EnvState) : EnvState × List Cmd × Except String Unit :=
  executeGo taskRoles body
    ((taskRoles.map (fun ro => dictGet e.roledefs ro [])).flatten.dedup) e

/-- `_check_git_dir` as an `execute` body (reads `env.git_dir`, leaves the
context unchanged). -/
def checkGitDirBody (ex : Exec) (e : EnvState) :
    EnvState × List Cmd × Except String Unit :=
  let c := _check_git_dir ex e.git_dir
  (e, c.1, c.2)

/-- `_deploy_git` as an `execute` body (reads `env.git_revision`). -/
def deployGitBody (ex : Exec) (branch : String) (e : EnvState) :
    EnvState × List Cmd × Except String Unit :=
  let c := _deploy_git ex branch (e.git_revision.getD "")
  (e, c.1, c.2)

/-- `_install` as an `execute` body. -/
def installBody (ex : Exec) (e : EnvState) :
    EnvState × List Cmd × Except String Unit :=
  let c := _install ex
  (e, c.1, c.2)

/-- `_restart` as an `execute` body. -/
def restartBody (ex : Exec) (e : EnvState) :
    EnvState × List Cmd × Except String Unit :=
  let c := _restart ex
  (e, c.1, c.2)

/-- `if not branch: branch = env.git_branch` — the branch actually used:
the argument when it is a truthy string, otherwise `env.git_branch`. -/
def chosenBranch (branchArg : Option String) (gitBranch : String) : String :=
  match branchArg with
  | none => gitBranch
  | some b => if b == "" then gitBranch else b

/-- Fatal sequencing of two pipeline stages: if the first stage aborted,
stop with its state and trace; otherwise run the continuation on the
first stage's resulting context, accumulating the traces. -/
def seqStep (first : EnvState × List Cmd × Except String Unit)
    (next : EnvState → EnvState × List Cmd × Except String Unit) :
    EnvState × List Cmd × Except String Unit :=
  match first.2.2 with
  | Except.error m => (first.1, first.2.1, Except.error m)
  | Except.ok _ =>
    ((next first.1).1, first.2.1 ++ (next first.1).2.1, (next first.1).2.2)

/-- The tail of `deploy` after the revision has been settled:
`execute(_deploy_git, branch); execute(_install); execute(_restart)`. -/
def deployStage345 (ex : Exec) (branch : String) (e : EnvState) :
    EnvState × List Cmd × Except String Unit :=
  seqStep (executeTask ["transcript"] (deployGitBody ex branch) e)
    (fun e3 =>
      seqStep (executeTask ["transcript"] (installBody ex) e3)
        (fun e4 => executeTask ["transcript"] (restartBody ex) e4))

/-- The revision-defaulting step of `deploy`, then the remaining stages:
`if not getattr(env, 'git_revision', None): env.git_revision =
env.git_info['revision']` — reading `env.git_info` when it was never set
raises (modelled as an error result). -/
def deployRevisionStep (ex : Exec) (branch : String) (e2 : EnvState) :
    EnvState × List Cmd × Except String Unit :=
  if truthyOpt e2.git_revision then deployStage345 ex branch e2
  else
    match e2.git_info with
    | none => (e2, [], Except.error "AttributeError: env.git_info")
    | some gi => deployStage345 ex branch { e2 with git_revision := some gi.revision }

/-- The `deploy(branch=None)` task: check/clone the git dir, gather git
info for the chosen branch, default `env.git_revision` to the fetched
revision when it is unset or falsy, then deploy, install and restart;
each stage's fatal failure aborts the rest. -/
def deploy (ex : Exec) (branchArg : Option String) (e : EnvState) :
    EnvState × List Cmd × Except String Unit :=
  seqStep (executeTask ["transcript"] (checkGitDirBody ex) e)
    (fun e1 =>
      seqStep (executeTask ["transcript"]
          (_git_info ex (chosenBranch branchArg e1.git_branch)) e1)
        (fun e2 =>
          deployRevisionStep ex (chosenBranch branchArg e1.git_branch) e2))

/-! ## Helper lemmas about the guard -/

lemma strictRolesCall_permits {α : Type} (roles : List String)
    (roledefs : List (String × List String)) (host : String)
    (task : Unit → α) (h : ∃ ro ∈ roles, host ∈ dictGet roledefs ro []) :
    strictRolesCall roles roledefs host task = GuardResult.ret (task ()) := by
  induction roles with
  | nil =>
    rcases h with ⟨ro, hmem, -⟩
    exact absurd hmem (List.not_mem_nil ro)
  | cons a rest ih =>
    rcases h with ⟨ro, hmem, hin⟩
    show (if host ∈ dictGet roledefs a [] then GuardResult.ret (task ())
          else strictRolesCall rest roledefs host task) = _
    by_cases ha : host ∈ dictGet roledefs a []
    · rw [if_pos ha]
    · rw [if_neg ha]
      rcases List.mem_cons.mp hmem with rfl | hr
      · exact absurd hin ha
      · exact ih ⟨ro, hr, hin⟩

lemma strictRolesCall_denies {α : Type} (roles : List String)
    (roledefs : List (String × List String)) (host : String)
    (task : Unit → α) (h : ∀ ro ∈ roles, host ∉ dictGet roledefs ro []) :
    strictRolesCall roles roledefs host task = GuardResult.sentinelFalse := by
  induction roles with
  | nil => rfl
  | cons a rest ih =>
    show (if host ∈ dictGet roledefs a [] then GuardResult.ret (task ())
          else strictRolesCall rest roledefs host task) = _
    rw [if_neg (h a (List.mem_cons_self a rest))]
    exact ih (fun ro hr => h ro (List.mem_cons_of_mem a hr))

lemma strictRolesCall_total {α : Type} (roles : List String)
    (roledefs : List (String × List String)) (host : String)
    (task : Unit → α) :
    strictRolesCall roles roledefs host task = GuardResult.ret (task ())
    ∨ strictRolesCall roles roledefs host task = GuardResult.sentinelFalse := by
  induction roles with
  | nil => exact Or.inr rfl
  | cons a rest ih =>
    show (if host ∈ dictGet roledefs a [] then GuardResult.ret (task ())
          else strictRolesCall rest roledefs host task) = _ ∨
         (if host ∈ dictGet roledefs a [] then GuardResult.ret (task ())
          else strictRolesCall rest roledefs host task) = _
    by_cases h : host ∈ dictGet roledefs a []
    · rw [if_pos h]
      exact Or.inl rfl
    · rw [if_neg h]
      exact ih

/-! ## Helper lemmas about the role resolver -/

lemma find?_map_key (rs : List String) (f : String → List String)
    (R : String) (h : R ∈ rs) :
    (rs.map (fun ro => (ro, f ro))).find? (fun p => p.1 == R)
      = some (R, f R) := by
  induction rs with
  | nil => exact absurd h (List.not_mem_nil R)
  | cons a rest ih =>
    rw [List.map_cons]
    by_cases ha : a = R
    · subst ha
      rw [List.find?_cons_of_pos _ (by simp)]
    · rw [List.find?_cons_of_neg _ (by simp [ha])]
      refine ih ?_
      rcases List.mem_cons.mp h with rfl | hr
      · exact absurd rfl ha
      · exact hr

lemma keys_get_roledefsR (reg : List Server) (E : String) :
    (_get_roledefsR reg E).map Prod.fst = allRoles reg := by
  unfold _get_roledefsR
  rw [List.map_map]
  have hcomp : (Prod.fst ∘ fun role => (role, roleHosts reg E role))
      = fun role => role := rfl
  rw [hcomp]
  exact List.map_id (allRoles reg)

lemma mem_allRoles (reg : List Server) (R : String) :
    R ∈ allRoles reg ↔ ∃ s ∈ reg, R ∈ s.roles := by
  unfold allRoles
  rw [List.mem_dedup, List.mem_flatten]
  constructor
  · rintro ⟨l, hl, hR⟩
    rcases List.mem_map.mp hl with ⟨s, hs, rfl⟩
    exact ⟨s, hs, hR⟩
  · rintro ⟨s, hs, hR⟩
    exact ⟨s.roles, List.mem_map.mpr ⟨s, hs, rfl⟩, hR⟩

lemma dictGet_get_roledefsR (reg : List Server) (E R : String)
    (h : R ∈ allRoles reg) :
    dictGet (_get_roledefsR reg E) R [] = roleHosts reg E R := by
  unfold dictGet _get_roledefsR
  rw [find?_map_key (allRoles reg) (roleHosts reg E) R h]

lemma mem_roleHosts (reg : List Server) (E R host : String) :
    host ∈ roleHosts reg E R
    ↔ ∃ s ∈ reg, s.host = host ∧ R ∈ s.roles ∧
        (E = s.environment ∨ s.environment = "all") := by
  unfold roleHosts
  constructor
  · intro h
    rcases List.mem_map.mp h with ⟨s, hs, rfl⟩
    rcases List.mem_filter.mp hs with ⟨hmem, hcond⟩
    exact ⟨s, hmem, rfl, of_decide_eq_true hcond⟩
  · rintro ⟨s, hs, rfl, hcond⟩
    exact List.mem_map.mpr
      ⟨s, List.mem_filter.mpr ⟨hs, decide_eq_true hcond⟩, rfl⟩

/-! ## Helper lemmas about command execution -/

lemma runSeq_warnOnly (ex : Exec) (cs : List String) :
    ∀ c ∈ (runSeq ex cs).1, c.warnOnly = false := by
  induction cs with
  | nil =>
    intro c hc
    exact absurd hc (List.not_mem_nil c)
  | cons a rest ih =>
    intro c hc
    by_cases ha : (ex a).1 = true
    · simp only [runSeq, ha, if_true] at hc
      rcases List.mem_cons.mp hc with rfl | hr
      · rfl
      · exact ih c hr
    · simp only [runSeq, ha, if_false, Bool.false_eq_true] at hc
      rcases List.mem_cons.mp hc with rfl | hr
      · rfl
      · exact absurd hr (List.not_mem_nil c)

lemma runSeq_ok_iff (ex : Exec) (cs : List String) :
    (runSeq ex cs).2 = Except.ok ()
    ↔ ∀ c ∈ (runSeq ex cs).1, (ex c.cmd).1 = true := by
  induction cs with
  | nil =>
    constructor
    · intro _ c hc
      exact absurd hc (List.not_mem_nil c)
    · intro _
      rfl
  | cons a rest ih =>
    by_cases ha : (ex a).1 = true
    · simp only [runSeq, ha, if_true]
      rw [ih]
      constructor
      · intro h c hc
        rcases List.mem_cons.mp hc with rfl | hr
        · exact ha
        · exact h c hr
      · intro h c hc
        exact h c (List.mem_cons_of_mem _ hc)
    · simp only [runSeq, ha, if_false, Bool.false_eq_true]
      constructor
      · intro h
        exact absurd h (by simp)
      · intro h
        exact absurd (h ⟨a, false⟩ (List.mem_cons_self _ _)) (by simp [ha])

lemma runSeq_error_of_fail (ex : Exec) (cs : List String)
    (h : ∃ c ∈ (runSeq ex cs).1, (ex c.cmd).1 = false) :
    ∃ m, (runSeq ex cs).2 = Except.error m := by
  rcases hres : (runSeq ex cs).2 with m | u
  · exact ⟨m, rfl⟩
  · cases u
    rcases h with ⟨c, hc, hfail⟩
    have := (runSeq_ok_iff ex cs).mp hres c hc
    rw [this] at hfail
    exact absurd hfail (by simp)

lemma git_info_of_some (ex : Exec) (branch : String) (e : EnvState)
    (gi : GitInfo) (h : e.git_info = some gi) :
    _git_info ex branch e = (e, [], Except.ok ()) := by
  unfold _git_info
  rw [h]

lemma git_info_trace (ex : Exec) (branch : String) (e : EnvState)
    (h : e.git_info = none) :
    (_git_info ex branch e).2.1 = (runSeq ex (gitInfoCmds branch)).1 := by
  unfold _git_info
  rw [h]
  rcases hres : (runSeq ex (gitInfoCmds branch)).2 with m | u
  · simp [hres]
  · cases u
    simp [hres]

lemma git_info_result (ex : Exec) (branch : String) (e : EnvState)
    (h : e.git_info = none) :
    (_git_info ex branch e).2.2 = (runSeq ex (gitInfoCmds branch)).2 := by
  unfold _git_info
  rw [h]
  rcases hres : (runSeq ex (gitInfoCmds branch)).2 with m | u
  · simp [hres]
  · cases u
    simp [hres]

lemma git_info_ok_state (ex : Exec) (branch : String) (e : EnvState)
    (h : e.git_info = none)
    (hok : (runSeq ex (gitInfoCmds branch)).2 = Except.ok ()) :
    (_git_info ex branch e).1 = { e with git_info := some (gitInfoOf ex branch) } := by
  unfold _git_info
  rw [h]
  simp [hok]

lemma git_info_preserves_revision (ex : Exec) (branch : String)
    (e : EnvState) : ((_git_info ex branch e).1).git_revision = e.git_revision := by
  unfold _git_info
  rcases hgi : e.git_info with _ | gi
  · rcases hres : (runSeq ex (gitInfoCmds branch)).2 with m | u
    · simp [hres]
    · cases u
      simp [hres]
  · rfl

/-! ## Preservation of `env.git_revision` through the dispatch loop -/

lemma executeGo_preserves_revision (taskRoles : List String)
    (body : EnvState → EnvState × List Cmd × Except String Unit)
    (hbody : ∀ e, ((body e).1).git_revision = e.git_revision) :
    ∀ (hs : List String) (e : EnvState),
      ((executeGo taskRoles body hs e).1).git_revision = e.git_revision := by
  intro hs
  induction hs with
  | nil =>
    intro e
    rfl
  | cons h hs ih =>
    intro e
    by_cases hg : (taskRoles.any
        (fun ro => decide (h ∈ dictGet { e with host := h }.roledefs ro []))) = true
    · simp only [executeGo, hg, if_true]
      rcases hb : body { e with host := h } with ⟨e2, tr, res⟩
      have he2 : e2.git_revision = e.git_revision := by
        have hb2 := hbody { e with host := h }
        rw [hb] at hb2
        exact hb2
      cases res with
      | error m => exact he2
      | ok u => exact (ih e2).trans he2
    · simp only [executeGo, hg, if_false, Bool.false_eq_true]
      exact ih { e with host := h }

lemma executeTask_preserves_revision (taskRoles : List String)
    (body : EnvState → EnvState × List Cmd × Except String Unit)
    (hbody : ∀ e, ((body e).1).git_revision = e.git_revision) (e : EnvState) :
    ((executeTask taskRoles body e).1).git_revision = e.git_revision :=
  executeGo_preserves_revision taskRoles body hbody _ e

lemma seqStep_of_error (first : EnvState × List Cmd × Except String Unit)
    (next : EnvState → EnvState × List Cmd × Except String Unit)
    (m : String) (h : first.2.2 = Except.error m) :
    seqStep first next = (first.1, first.2.1, Except.error m) := by
  unfold seqStep
  rw [h]

lemma seqStep_of_ok (first : EnvState × List Cmd × Except String Unit)
    (next : EnvState → EnvState × List Cmd × Except String Unit)
    (h : first.2.2 = Except.ok ()) :
    seqStep first next
      = ((next first.1).1, first.2.1 ++ (next first.1).2.1,
          (next first.1).2.2) := by
  unfold seqStep
  rw [h]

lemma seqStep_rev (first : EnvState × List Cmd × Except String Unit)
    (next : EnvState → EnvState × List Cmd × Except String Unit)
    (hn : ∀ e, ((next e).1).git_revision = e.git_revision) :
    ((seqStep first next).1).git_revision = (first.1).git_revision := by
  rcases h : first.2.2 with m | u
  · rw [seqStep_of_error first next m h]
  · cases u
    rw [seqStep_of_ok first next h]
    exact hn first.1

lemma deployStage345_preserves_revision (ex : Exec) (branch : String)
    (e : EnvState) :
    ((deployStage345 ex branch e).1).git_revision = e.git_revision := by
  unfold deployStage345
  refine (seqStep_rev _ _ ?_).trans
    (executeTask_preserves_revision _ _ (fun _ => rfl) e)
  intro e3
  exact (seqStep_rev _ _
      (fun e4 => executeTask_preserves_revision _ _ (fun _ => rfl) e4)).trans
    (executeTask_preserves_revision _ _ (fun _ => rfl) e3)

/-! ## Claims -/

/-- C1: a `strict_roles`-guarded call runs the task and returns its result
exactly when the current host appears in `roledefs.get(role, [])` for some
required role, and otherwise returns the `False` sentinel without running
the task. -/
theorem strict_roles_guard_correct {α : Type} (roles : List String)
    (roledefs : List (String × List String)) (host : String)
    (task : Unit → α) :
    ((∃ ro ∈ roles, host ∈ dictGet roledefs ro []) →
      strictRolesCall roles roledefs host task = GuardResult.ret (task ()))
    ∧ ((∀ ro ∈ roles, host ∉ dictGet roledefs ro []) →
      strictRolesCall roles roledefs host task = GuardResult.sentinelFalse) :=
  ⟨strictRolesCall_permits roles roledefs host task,
   strictRolesCall_denies roles roledefs host task⟩

/-- Witness for C1: with roledefs `{transcript: [h1]}` the guard runs the
task on `h1` and returns `False` on `h2`. -/
theorem strict_roles_guard_correct_witness :
    strictRolesCall ["transcript"] [("transcript", ["h1"])] "h1"
        (fun _ => (42 : Nat)) = GuardResult.ret 42
    ∧ strictRolesCall ["transcript"] [("transcript", ["h1"])] "h2"
        (fun _ => (42 : Nat)) = GuardResult.sentinelFalse :=
  ⟨(strict_roles_guard_correct ["transcript"] [("transcript", ["h1"])] "h1"
      (fun _ => (42 : Nat))).1 ⟨"transcript", by decide, by decide⟩,
   (strict_roles_guard_correct ["transcript"] [("transcript", ["h1"])] "h2"
      (fun _ => (42 : Nat))).2 (by decide)⟩

/-- C2: for a role `R` present as a key of the resolved role map, a host
is in `_get_roledefs`'s sequence for `R` iff some descriptor in the
registry has that host, lists `R`, and has the selected environment or the
wildcard "all". -/
theorem get_roledefs_membership (reg : List Server) (E R host : String)
    (hR : R ∈ (_get_roledefsR reg E).map Prod.fst) :
    host ∈ dictGet (_get_roledefsR reg E) R []
    ↔ ∃ s ∈ reg, s.host = host ∧ R ∈ s.roles ∧
        (s.environment = E ∨ s.environment = "all") := by
  rw [keys_get_roledefsR] at hR
  rw [dictGet_get_roledefsR reg E R hR, mem_roleHosts]
  constructor
  · rintro ⟨s, hs, hh, hr, henv⟩
    exact ⟨s, hs, hh, hr, henv.imp Eq.symm id⟩
  · rintro ⟨s, hs, hh, hr, henv⟩
    exact ⟨s, hs, hh, hr, henv.imp Eq.symm id⟩

/-- Witness for C2: in the literal `SERVERS` registry resolved for "prod",
the prod transcript host is under role "transcript", backed by its
descriptor. -/
theorem get_roledefs_membership_witness :
    "archives-prod-transcript-app.nypr.digital"
      ∈ dictGet (_get_roledefsR SERVERS "prod") "transcript" [] :=
  (get_roledefs_membership SERVERS "prod" "transcript"
      "archives-prod-transcript-app.nypr.digital" (by decide)).mpr
    ⟨⟨"archives-prod-transcript-app.nypr.digital", "prod", ["transcript"]⟩,
      by decide, rfl, by decide, Or.inl rfl⟩

/-- C3: the key set of the resolved role map is exactly the union of role
names across all descriptors (regardless of environment); a role listed by
some descriptor but with no descriptor matching the selected environment
is still a key, mapped to the empty sequence. -/
theorem get_roledefs_keys (reg : List Server) (E R : String) :
    (R ∈ (_get_roledefsR reg E).map Prod.fst ↔ ∃ s ∈ reg, R ∈ s.roles)
    ∧ ((∃ s ∈ reg, R ∈ s.roles) →
        (∀ s ∈ reg, ¬ (R ∈ s.roles ∧ (E = s.environment ∨ s.environment = "all"))) →
        (R, ([] : List String)) ∈ _get_roledefsR reg E) := by
  constructor
  · rw [keys_get_roledefsR]
    exact mem_allRoles reg R
  · intro hsome hnone
    have hall : R ∈ allRoles reg := (mem_allRoles reg R).mpr hsome
    have hempty : roleHosts reg E R = [] := by
      unfold roleHosts
      rw [List.filter_eq_nil_iff.mpr]
      · rfl
      · intro s hs
        simpa using hnone s hs
    have hmem : (R, roleHosts reg E R) ∈ _get_roledefsR reg E :=
      List.mem_map.mpr ⟨R, hall, rfl⟩
    rwa [hempty] at hmem

/-- Witness for C3: with a second, staging-only descriptor carrying role
"web", resolving for "prod" keeps "web" as a key mapped to `[]`. -/
theorem get_roledefs_keys_witness :
    ("web", ([] : List String))
      ∈ _get_roledefsR
          [⟨"h1", "prod", ["transcript"]⟩, ⟨"h2", "staging", ["web"]⟩]
          "prod" :=
  (get_roledefs_keys
      [⟨"h1", "prod", ["transcript"]⟩, ⟨"h2", "staging", ["web"]⟩]
      "prod" "web").2
    ⟨⟨"h2", "staging", ["web"]⟩, by decide, by decide⟩ (by decide)

/-- C4: when two descriptors matching the selected environment (directly
or via "all") share a role, the resolved sequence for that role lists both
hosts, in registry order. -/
theorem get_roledefs_order (E R : String) (reg1 reg2 reg3 : List Server)
    (s1 s2 : Server)
    (h1 : R ∈ s1.roles ∧ (E = s1.environment ∨ s1.environment = "all"))
    (h2 : R ∈ s2.roles ∧ (E = s2.environment ∨ s2.environment = "all")) :
    dictGet (_get_roledefsR (reg1 ++ s1 :: (reg2 ++ s2 :: reg3)) E) R []
    = roleHosts reg1 E R
        ++ s1.host :: (roleHosts reg2 E R ++ s2.host :: roleHosts reg3 E R) := by
  have hall : R ∈ allRoles (reg1 ++ s1 :: (reg2 ++ s2 :: reg3)) :=
    (mem_allRoles _ R).mpr ⟨s1, by simp, h1.1⟩
  rw [dictGet_get_roledefsR _ E R hall]
  have d1 : decide (R ∈ s1.roles ∧ (E = s1.environment ∨ s1.environment = "all"))
      = true := decide_eq_true h1
  have d2 : decide (R ∈ s2.roles ∧ (E = s2.environment ∨ s2.environment = "all"))
      = true := decide_eq_true h2
  unfold roleHosts
  simp [List.filter_append, List.filter_cons, d1, d2, h1, h2]

/-- Witness for C4: two descriptors for role "x" (one "prod", one "all",
with a non-matching staging host between them) resolve, for "prod", to
their two hosts in registry order. -/
theorem get_roledefs_order_witness :
    dictGet
      (_get_roledefsR
        [⟨"h1", "prod", ["x"]⟩, ⟨"h3", "staging", ["x"]⟩, ⟨"h2", "all", ["x"]⟩]
        "prod") "x" []
    = roleHosts [] "prod" "x"
        ++ "h1" :: (roleHosts [⟨"h3", "staging", ["x"]⟩] "prod" "x"
              ++ "h2" :: roleHosts [] "prod" "x") :=
  get_roledefs_order "prod" "x" [] [⟨"h3", "staging", ["x"]⟩] []
    ⟨"h1", "prod", ["x"]⟩ ⟨"h2", "all", ["x"]⟩
    (by exact ⟨by decide, Or.inl rfl⟩) (by exact ⟨by decide, Or.inr rfl⟩)

/-- C6: role resolution is deterministic, idempotent, and leaves the
registry unmodified — the state-threaded `_get_roledefs_run` returns the
registry unchanged, and running it again on that registry yields the same
map. -/
theorem get_roledefs_idempotent (reg : List Server) (E : String) :
    (_get_roledefs_run reg E).2 = reg
    ∧ (_get_roledefs_run ((_get_roledefs_run reg E).2) E).1
        = (_get_roledefs_run reg E).1 :=
  ⟨rfl, rfl⟩

/-- C7: after the `prod` task, the context has environment "prod" and git
branch "master", its roledefs are `_get_roledefs("prod")`, and its active
roles are exactly the roledefs keys whose host sequence is non-empty. -/
theorem prod_sets_context (e : EnvState) :
    (prod e).environment = "prod"
    ∧ (prod e).git_branch = "master"
    ∧ (prod e).roledefs = _get_roledefs "prod"
    ∧ ∀ ro, ro ∈ (prod e).roles ↔
        ∃ hs, (ro, hs) ∈ (prod e).roledefs ∧ 0 < hs.length := by
  refine ⟨rfl, rfl, rfl, ?_⟩
  intro ro
  show ro ∈ ((_get_roledefs "prod").filter
      (fun p => p.2.length > 0)).map Prod.fst ↔ _
  constructor
  · intro h
    rcases List.mem_map.mp h with ⟨p, hp, rfl⟩
    rcases List.mem_filter.mp hp with ⟨hmem, hlen⟩
    refine ⟨p.2, ?_, of_decide_eq_true hlen⟩
    show (p.1, p.2) ∈ (prod e).roledefs
    rw [Prod.mk.eta]
    exact hmem
  · rintro ⟨hs, hmem, hlen⟩
    exact List.mem_map.mpr
      ⟨(ro, hs), List.mem_filter.mpr ⟨hmem, decide_eq_true hlen⟩, rfl⟩

/-- C8: in `_check_git_dir`'s command trace the only warn-only command is
the git-directory existence test, the `git clone` is issued iff that test
fails, and every command of the remaining remote tasks runs in normal mode
where any failure yields a fatal error result. -/
theorem warn_only_and_fatal (ex : Exec) (branch revision : String)
    (e : EnvState) :
    (∀ c ∈ (_check_git_dir ex "/opt/transcript/transcript-editor").1,
        (c.warnOnly = true ↔ c.cmd = "test -d /opt/transcript/transcript-editor"))
    ∧ ((⟨"git clone " ++ REPO, false⟩ : Cmd)
          ∈ (_check_git_dir ex "/opt/transcript/transcript-editor").1
        ↔ (ex "test -d /opt/transcript/transcript-editor").1 = false)
    ∧ (∀ c, (c ∈ (_deploy_git ex branch revision).1
          ∨ c ∈ (_git_info ex branch e).2.1
          ∨ c ∈ (_install ex).1 ∨ c ∈ (_restart ex).1) → c.warnOnly = false)
    ∧ ((∃ c ∈ (_deploy_git ex branch revision).1, (ex c.cmd).1 = false) →
        ∃ m, (_deploy_git ex branch revision).2 = Except.error m)
    ∧ ((∃ c ∈ (_git_info ex branch e).2.1, (ex c.cmd).1 = false) →
        ∃ m, (_git_info ex branch e).2.2 = Except.error m)
    ∧ ((∃ c ∈ (_install ex).1, (ex c.cmd).1 = false) →
        ∃ m, (_install ex).2 = Except.error m)
    ∧ ((∃ c ∈ (_restart ex).1, (ex c.cmd).1 = false) →
        ∃ m, (_restart ex).2 = Except.error m) := by
  have hgi_warn : ∀ c ∈ (_git_info ex branch e).2.1, c.warnOnly = false := by
    rcases hcase : e.git_info with _ | gi
    · rw [git_info_trace ex branch e hcase]
      exact runSeq_warnOnly ex (gitInfoCmds branch)
    · rw [git_info_of_some ex branch e gi hcase]
      intro c hc
      exact absurd hc (List.not_mem_nil c)
  have hgi_fatal : (∃ c ∈ (_git_info ex branch e).2.1, (ex c.cmd).1 = false) →
      ∃ m, (_git_info ex branch e).2.2 = Except.error m := by
    rcases hcase : e.git_info with _ | gi
    · rw [git_info_trace ex branch e hcase, git_info_result ex branch e hcase]
      exact runSeq_error_of_fail ex (gitInfoCmds branch)
    · rw [git_info_of_some ex branch e gi hcase]
      rintro ⟨c, hc, -⟩
      exact absurd hc (List.not_mem_nil c)
  refine ⟨?_, ?_, ?_,
    runSeq_error_of_fail ex _, hgi_fatal, runSeq_error_of_fail ex _,
    runSeq_error_of_fail ex _⟩
  · intro c hc
    have happ : "test -d " ++ "/opt/transcript/transcript-editor"
        = "test -d /opt/transcript/transcript-editor" := rfl
    by_cases htest : (ex "test -d /opt/transcript/transcript-editor").1 = true
    · simp only [_check_git_dir, happ, htest, if_true] at hc
      rcases List.mem_cons.mp hc with rfl | hr
      · simp
      · exact absurd hr (List.not_mem_nil c)
    · simp only [_check_git_dir, happ, htest, if_false, Bool.false_eq_true] at hc
      rcases List.mem_cons.mp hc with rfl | hr
      · simp
      · rcases List.mem_cons.mp hr with rfl | hr2
        · simp only [Bool.false_eq_true, false_iff]
          intro hcmd
          exact absurd hcmd (by decide)
        · exact absurd hr2 (List.not_mem_nil c)
  · have happ : "test -d " ++ "/opt/transcript/transcript-editor"
        = "test -d /opt/transcript/transcript-editor" := rfl
    by_cases htest : (ex "test -d /opt/transcript/transcript-editor").1 = true
    · simp only [_check_git_dir, happ, htest, if_true]
      constructor
      · intro hc
        rcases List.mem_cons.mp hc with heq | hr
        · exact absurd (congrArg Cmd.warnOnly heq) (by decide)
        · exact absurd hr (List.not_mem_nil _)
      · intro hfalse
        exact absurd hfalse (by simp)
    · simp only [_check_git_dir, happ, htest, if_false, Bool.false_eq_true]
      constructor
      · intro _
        trivial
      · intro _
        exact List.mem_cons_of_mem _ (List.mem_cons_self _ _)
  · intro c hc
    rcases hc with h1 | h2 | h3 | h4
    · exact runSeq_warnOnly ex _ c h1
    · exact hgi_warn c h2
    · exact runSeq_warnOnly ex _ c h3
    · exact runSeq_warnOnly ex _ c h4

/-- The executor used by C8's witness: every command fails. -/
def exFailAll : Exec := fun _ => (false, "")

/-- Witness for C8: with an all-failing executor the existence test fails,
so the clone command is issued, and the (failing) restart command makes
`_restart` return a fatal error. -/
theorem warn_only_and_fatal_witness :
    (⟨"git clone " ++ REPO, false⟩ : Cmd)
        ∈ (_check_git_dir exFailAll "/opt/transcript/transcript-editor").1
    ∧ ∃ m, (_restart exFailAll).2 = Except.error m :=
  ⟨(warn_only_and_fatal exFailAll "master" "rev"
      ⟨"", "", "", [], [], "", "", none, none⟩).2.1.mpr rfl,
   (warn_only_and_fatal exFailAll "master" "rev"
      ⟨"", "", "", [], [], "", "", none, none⟩).2.2.2.2.2.2
     ⟨⟨"sudo /usr/systemctl restart transcript", false⟩, by decide, rfl⟩⟩

/-- C10: `_git_info` is memoized on the context — when `env.git_info` is
already present the call issues no remote command, returns success, and
leaves the context unchanged. -/
theorem git_info_memoized (ex : Exec) (branch : String) (e : EnvState)
    (gi : GitInfo) (h : e.git_info = some gi) :
    _git_info ex branch e = (e, [], Except.ok ()) :=
  git_info_of_some ex branch e gi h

/-- Witness for C10: a context whose `git_info` is populated passes
through `_git_info` untouched, with an empty command trace. -/
theorem git_info_memoized_witness :
    _git_info exFailAll "master"
        ⟨"prod", "", "", [], [], "master", "", none, some ⟨"r", "p", "d", []⟩⟩
      = (⟨"prod", "", "", [], [], "master", "", none, some ⟨"r", "p", "d", []⟩⟩,
          [], Except.ok ()) :=
  git_info_memoized exFailAll "master"
    ⟨"prod", "", "", [], [], "master", "", none, some ⟨"r", "p", "d", []⟩⟩
    ⟨"r", "p", "d", []⟩ rfl

/-- C9: `deploy` leaves a truthy `env.git_revision` unchanged; when it is
unset or falsy and the preceding stages succeed with `env.git_info`
populated, `deploy` overwrites it with that info's revision — which, for a
fresh `_git_info` run, is the stdout of `git rev-parse` for the chosen
branch. -/
theorem deploy_git_revision_update (ex : Exec) (branchArg : Option String)
    (e : EnvState) :
    (truthyOpt e.git_revision = true →
      ((deploy ex branchArg e).1).git_revision = e.git_revision)
    ∧ (∀ (e1 : EnvState) (tr1 : List Cmd) (e2 : EnvState) (tr2 : List Cmd)
          (gi : GitInfo),
        truthyOpt e.git_revision = false →
        executeTask ["transcript"] (checkGitDirBody ex) e
          = (e1, tr1, Except.ok ()) →
        executeTask ["transcript"]
            (_git_info ex (chosenBranch branchArg e1.git_branch)) e1
          = (e2, tr2, Except.ok ()) →
        e2.git_info = some gi →
        ((deploy ex branchArg e).1).git_revision = some gi.revision)
    ∧ (∀ (branch : String) (e' : EnvState), e'.git_info = none →
        (_git_info ex branch e').2.2 = Except.ok () →
        ((_git_info ex branch e').1).git_info = some (gitInfoOf ex branch)
        ∧ (gitInfoOf ex branch).revision = (ex (revParseCmd branch)).2) := by
  refine ⟨?_, ?_, ?_⟩
  · intro ht
    unfold deploy
    rcases h1 : (executeTask ["transcript"] (checkGitDirBody ex) e).2.2
      with m | u
    · simp only [seqStep, h1]
      exact executeTask_preserves_revision _ _ (fun _ => rfl) e
    · cases u
      simp only [seqStep, h1]
      set e1x := (executeTask ["transcript"] (checkGitDirBody ex) e).1
        with he1x
      have he1 : e1x.git_revision = e.git_revision := by
        rw [he1x]
        exact executeTask_preserves_revision _ _ (fun _ => rfl) e
      rcases h2 : (executeTask ["transcript"]
          (_git_info ex (chosenBranch branchArg e1x.git_branch)) e1x).2.2
        with m | u
      · simp only [h2]
        exact (executeTask_preserves_revision _ _
          (git_info_preserves_revision ex _) e1x).trans he1
      · cases u
        simp only [h2]
        set e2x := (executeTask ["transcript"]
          (_git_info ex (chosenBranch branchArg e1x.git_branch)) e1x).1
          with he2x
        have he2 : e2x.git_revision = e.git_revision := by
          rw [he2x]
          exact (executeTask_preserves_revision _ _
            (git_info_preserves_revision ex _) e1x).trans he1
        have ht2 : truthyOpt e2x.git_revision = true := by
          rw [he2]
          exact ht
        unfold deployRevisionStep
        rw [if_pos ht2]
        exact (deployStage345_preserves_revision ex _ e2x).trans he2
  · intro e1 tr1 e2 tr2 gi ht h1 h2 hgi
    have h1ok : (executeTask ["transcript"] (checkGitDirBody ex) e).2.2
        = Except.ok () := by rw [h1]
    have h1fst : (executeTask ["transcript"] (checkGitDirBody ex) e).1
        = e1 := by rw [h1]
    have he1 : e1.git_revision = e.git_revision := by
      rw [← h1fst]
      exact executeTask_preserves_revision _ _ (fun _ => rfl) e
    unfold deploy
    simp only [seqStep, h1ok, h1fst]
    have h2ok : (executeTask ["transcript"]
        (_git_info ex (chosenBranch branchArg e1.git_branch)) e1).2.2
        = Except.ok () := by rw [h2]
    have h2fst : (executeTask ["transcript"]
        (_git_info ex (chosenBranch branchArg e1.git_branch)) e1).1
        = e2 := by rw [h2]
    have he2 : e2.git_revision = e.git_revision := by
      rw [← h2fst]
      exact (executeTask_preserves_revision _ _
        (git_info_preserves_revision ex _) e1).trans he1
    simp only [h2ok, h2fst]
    have ht2 : truthyOpt e2.git_revision = false := by
      rw [he2]
      exact ht
    unfold deployRevisionStep
    rw [if_neg (by rw [ht2]; exact Bool.false_ne_true), hgi]
    exact (deployStage345_preserves_revision ex _ _).trans rfl
  · intro branch e' hnone hok
    refine ⟨?_, rfl⟩
    have hok2 : (runSeq ex (gitInfoCmds branch)).2 = Except.ok () := by
      rw [← git_info_result ex branch e' hnone]
      exact hok
    rw [git_info_ok_state ex branch e' hnone hok2]

/-- The all-succeeding executor used by C9's witness; every command
prints "abc". -/
def exW : Exec := fun _ => (true, "abc")

/-- The context C9's witness starts from (the context after `fab prod`,
host not yet dispatched). -/
def envW : EnvState :=
  ⟨"prod", "transcript", "/opt/transcript/transcript-editor",
   [("transcript", ["archives-prod-transcript-app.nypr.digital"])],
   ["transcript"], "master", "", none, none⟩

/-- Witness for C9: starting from a falsy (`None`) revision, a fully
successful deploy run ends with `env.git_revision` set to the rev-parse
output "abc". -/
theorem deploy_git_revision_update_witness :
    truthyOpt envW.git_revision = false
    ∧ ((deploy exW none envW).1).git_revision = some "abc" :=
  ⟨rfl,
   (deploy_git_revision_update exW none envW).2.1
     { envW with host := "archives-prod-transcript-app.nypr.digital" }
     [⟨"test -d /opt/transcript/transcript-editor", true⟩]
     { envW with
         host := "archives-prod-transcript-app.nypr.digital"
         git_info := some ⟨"abc", "abc", "abc", ["abc"]⟩ }
     [⟨"git fetch -q origin +master:remotes/origin/master", false⟩,
      ⟨"git rev-parse remotes/origin/master", false⟩,
      ⟨"git diff --no-color --name-only remotes/origin/master | cat", false⟩,
      ⟨"git log --no-color -1 --full-history HEAD | cat", false⟩,
      ⟨"git log --no-color -1 --full-history remotes/origin/master | cat", false⟩]
     ⟨"abc", "abc", "abc", ["abc"]⟩
     rfl (by rfl) (by rfl) rfl⟩

/-- C5: evaluating the guard is total — the result is always either the
task's value or the `False` sentinel — and whenever the current host is
under no required role (roles missing from the roledefs dict included,
via the `.get(role, [])` default) the result is the sentinel, not an
error. -/
theorem strict_roles_never_fails {α : Type} (roles : List String)
    (roledefs : List (String × List String)) (host : String)
    (task : Unit → α) :
    (strictRolesCall roles roledefs host task = GuardResult.ret (task ())
      ∨ strictRolesCall roles roledefs host task = GuardResult.sentinelFalse)
    ∧ ((∀ ro ∈ roles, host ∉ dictGet roledefs ro []) →
      strictRolesCall roles roledefs host task = GuardResult.sentinelFalse) :=
  ⟨strictRolesCall_total roles roledefs host task,
   strictRolesCall_denies roles roledefs host task⟩

/-- Witness for C5: on a roledefs dict where the required role is absent
entirely, the guard yields the sentinel (treating the missing role as an
empty host sequence). -/
theorem strict_roles_never_fails_witness :
    strictRolesCall ["transcript"] [("web", ["h3"])] "h3"
        (fun _ => "ran") = GuardResult.sentinelFalse :=
  (strict_roles_never_fails ["transcript"] [("web", ["h3"])] "h3"
      (fun _ => "ran")).2 (by decide)

end Fabfile
